import Mathlib

set_option maxHeartbeats 1000000

/-!
Shallow embedding of the conditional-selection kernel family exercised by
`src/cpp/src/arrow/compute/kernels/scalar_if_else_benchmark.cc`: the kernels
`if_else`, `case_when`, `coalesce` and `choose` over columnar arrays with
per-element validity, together with models of the benchmark wrappers that are
present in the source file itself.

A columnar array of element type `α` is embedded as `List (Option α)`: one
cell per row, `none` meaning the row is null (validity bit 0) and `some v` a
valid value `v` (validity bit 1). A scalar is a `Datum.scal` cell that
broadcasts to any requested length.

The kernel implementations themselves are not part of the repository snapshot
(only this benchmark caller is), so the kernels are modelled from the design
spec, as noted on each definition.
-/

/-- Kernel error kinds (spec section 7: TypeMismatch, LengthMismatch,
IndexOutOfBounds, AllocationFailure). -/
inductive KError where
  | TypeMismatch
  | LengthMismatch
  | IndexOutOfBounds
  | AllocationFailure
  deriving DecidableEq, Repr

/-- A kernel argument: either a materialized array of cells or a broadcastable
scalar (spec section 3). -/
inductive Datum (α : Type) where
  | arr (cells : List (Option α))
  | scal (v : Option α)

/-- Broadcasting (spec section 3 and glossary): a scalar behaves as a
constant-valued array of the requested length; an array is used as-is. -/
def Datum.broadcast : Datum α → Nat → List (Option α)
  | .arr cells, _ => cells
  | .scal v, n => List.replicate n v

@[simp] theorem Datum.broadcast_arr (cells : List (Option α)) (n : Nat) :
    (Datum.arr cells).broadcast n = cells := rfl

@[simp] theorem Datum.broadcast_scal (v : Option α) (n : Nat) :
    (Datum.scal v).broadcast n = List.replicate n v := rfl

/-- Three-way zip, the row-wise evaluation scheme of a ternary kernel. -/
def zipWith3 (f : α → β → γ → δ) : List α → List β → List γ → List δ
  | a :: as, b :: bs, c :: cs => f a b c :: zipWith3 f as bs cs
  | _, _, _ => []

@[simp] theorem zipWith3_nil_left (f : α → β → γ → δ) (b : List β) (c : List γ) :
    zipWith3 f [] b c = [] := by
  cases b <;> cases c <;> rfl

@[simp] theorem zipWith3_nil_mid (f : α → β → γ → δ) (a : List α) (c : List γ) :
    zipWith3 f a [] c = [] := by
  cases a <;> cases c <;> rfl

@[simp] theorem zipWith3_nil_right (f : α → β → γ → δ) (a : List α) (b : List β) :
    zipWith3 f a b [] = [] := by
  cases a <;> cases b <;> rfl

@[simp] theorem zipWith3_cons (f : α → β → γ → δ) (x : α) (xs : List α)
    (y : β) (ys : List β) (z : γ) (zs : List γ) :
    zipWith3 f (x :: xs) (y :: ys) (z :: zs) = f x y z :: zipWith3 f xs ys zs := rfl

theorem length_zipWith3 (f : α → β → γ → δ) (a : List α) (b : List β) (c : List γ) :
    (zipWith3 f a b c).length = min a.length (min b.length c.length) := by
  induction a generalizing b c with
  | nil => simp
  | cons x xs ih =>
    cases b with
    | nil => simp
    | cons y ys =>
      cases c with
      | nil => simp
      | cons z zs => simp [ih, Nat.succ_min_succ]

theorem getD_zipWith3 (f : α → β → γ → δ) (a : List α) (b : List β) (c : List γ)
    (i : Nat) (da : α) (db : β) (dc : γ) (dd : δ)
    (ha : i < a.length) (hb : i < b.length) (hc : i < c.length) :
    (zipWith3 f a b c).getD i dd = f (a.getD i da) (b.getD i db) (c.getD i dc) := by
  induction a generalizing b c i with
  | nil => simp at ha
  | cons x xs ih =>
    cases b with
    | nil => simp at hb
    | cons y ys =>
      cases c with
      | nil => simp at hc
      | cons z zs =>
        cases i with
        | zero => simp
        | succ j =>
          simp only [zipWith3_cons, List.getD_cons_succ]
          exact ih ys zs j (by simpa using ha) (by simpa using hb) (by simpa using hc)

/-- Modelled from the spec (section 4.2, per-row contract of `if_else`): the
`if_else` kernel implementation is not under `src/` (only its benchmark caller
is). Per row: a null condition yields null; a true condition selects the left
cell (with its own null-ness); a false condition selects the right cell. -/
def ifElseRow (c : Option Bool) (l r : Option α) : Option α :=
  match c with
  | none => none
  | some true => l
  | some false => r

@[simp] theorem ifElseRow_none (l r : Option α) : ifElseRow none l r = none := rfl

@[simp] theorem ifElseRow_true (l r : Option α) : ifElseRow (some true) l r = l := rfl

@[simp] theorem ifElseRow_false (l r : Option α) : ifElseRow (some false) l r = r := rfl

/-- Modelled from the spec (section 4.2): the `if_else` kernel. Arguments are
broadcast to the logical batch length `len`; a length disagreement fails with
`LengthMismatch`, otherwise the output is the row-wise selection. -/
def IfElse (len : Nat) (cond : Datum Bool) (left right : Datum α) :
    Except KError (List (Option α)) :=
  if (cond.broadcast len).length = len ∧ (left.broadcast len).length = len ∧
      (right.broadcast len).length = len then
    .ok (zipWith3 ifElseRow (cond.broadcast len) (left.broadcast len) (right.broadcast len))
  else
    .error .LengthMismatch

/-- C1: For every boolean condition datum and same-length (or broadcast
scalar) value datums, the `if_else` call succeeds and, at every row `i`, the
output cell equals the left cell when the condition is valid-and-true, the
right cell when it is valid-and-false, and is null when the condition cell is
null; equality of cells propagates the selected source's own null-ness. -/
theorem ifElse_row_contract (len : Nat) (cond : Datum Bool) (left right : Datum α)
    (hc : (cond.broadcast len).length = len)
    (hl : (left.broadcast len).length = len)
    (hr : (right.broadcast len).length = len)
    (i : Nat) (hi : i < len) :
    ∃ out, IfElse len cond left right = .ok out ∧
      ((cond.broadcast len).getD i none = some true →
        out.getD i none = (left.broadcast len).getD i none) ∧
      ((cond.broadcast len).getD i none = some false →
        out.getD i none = (right.broadcast len).getD i none) ∧
      ((cond.broadcast len).getD i none = none → out.getD i none = none) := by
  refine ⟨zipWith3 ifElseRow (cond.broadcast len) (left.broadcast len)
      (right.broadcast len), ?_, ?_, ?_, ?_⟩
  · unfold IfElse
    rw [if_pos ⟨hc, hl, hr⟩]
  · intro h
    rw [getD_zipWith3 ifElseRow _ _ _ i none none none none
      (by omega) (by omega) (by omega), h, ifElseRow_true]
  · intro h
    rw [getD_zipWith3 ifElseRow _ _ _ i none none none none
      (by omega) (by omega) (by omega), h, ifElseRow_false]
  · intro h
    rw [getD_zipWith3 ifElseRow _ _ _ i none none none none
      (by omega) (by omega) (by omega), h, ifElseRow_none]

/-- C1 witness: the contract instantiated at a concrete batch of three rows
with an array condition, a broadcast scalar left argument and an array right
argument. -/
theorem ifElse_row_contract_witness :
    ∃ out, IfElse 3 (Datum.arr [some true, some false, none])
        (Datum.scal (some 5)) (Datum.arr [none, some 7, some 8]) = .ok out ∧
      (((Datum.arr [some true, some false, none]).broadcast 3).getD 1 none = some true →
        out.getD 1 none = ((Datum.scal (some 5)).broadcast 3).getD 1 none) ∧
      (((Datum.arr [some true, some false, none]).broadcast 3).getD 1 none = some false →
        out.getD 1 none = ((Datum.arr [none, some 7, some 8]).broadcast 3).getD 1 none) ∧
      (((Datum.arr [some true, some false, none]).broadcast 3).getD 1 none = none →
        out.getD 1 none = none) :=
  ifElse_row_contract 3 (Datum.arr [some true, some false, none])
    (Datum.scal (some 5)) (Datum.arr [none, some 7, some 8])
    (by decide) (by decide) (by decide) 1 (by decide)

/-- Modelled from the spec (section 4.1, `FindRuns`): maximal contiguous runs
of identical condition outcome (true / false / null), ordered, non-overlapping
and covering the whole array. The run-finding utility itself is not under
`src/`. -/
def findRuns : List (Option Bool) → List (Option Bool × Nat)
  | [] => []
  | c :: cs =>
    match findRuns cs with
    | [] => [(c, 1)]
    | (v, n) :: rest => if v = c then (c, n + 1) :: rest else (c, 1) :: (v, n) :: rest

/-- Expansion of a run list back into the per-row condition sequence. -/
def expandRuns : List (Option Bool × Nat) → List (Option Bool)
  | [] => []
  | (v, n) :: rs => List.replicate n v ++ expandRuns rs

@[simp] theorem expandRuns_nil : expandRuns [] = [] := rfl

@[simp] theorem expandRuns_cons (v : Option Bool) (n : Nat) (rs : List (Option Bool × Nat)) :
    expandRuns ((v, n) :: rs) = List.replicate n v ++ expandRuns rs := rfl

theorem expandRuns_findRuns (c : List (Option Bool)) : expandRuns (findRuns c) = c := by
  induction c with
  | nil => rfl
  | cons x xs ih =>
    cases h : findRuns xs with
    | nil =>
      rw [h] at ih
      simp only [expandRuns_nil] at ih
      simp [findRuns, h, ← ih]
    | cons p rest =>
      obtain ⟨v, n⟩ := p
      rw [h] at ih
      by_cases hv : v = x
      · subst hv
        simp only [findRuns, h, eq_self_iff_true, if_true]
        rw [expandRuns_cons, List.replicate_succ, List.cons_append, ← expandRuns_cons, ih]
      · simp only [findRuns, h, if_neg hv]
        rw [expandRuns_cons, List.replicate_one, List.singleton_append, ih]

/-- Modelled from the spec (section 4.2, contiguous fast path): for each run
of the condition, bulk-copy the corresponding span of rows from the left
source (all-true run), the right source (all-false run) or emit a null span
(all-null run), instead of evaluating row by row. -/
def runSelect : List (Option Bool × Nat) → List (Option α) → List (Option α) → List (Option α)
  | [], _, _ => []
  | (some true, n) :: rs, l, r => l.take n ++ runSelect rs (l.drop n) (r.drop n)
  | (some false, n) :: rs, l, r => r.take n ++ runSelect rs (l.drop n) (r.drop n)
  | (none, n) :: rs, l, r => List.replicate n none ++ runSelect rs (l.drop n) (r.drop n)

/-- Modelled from the spec (sections 4.2 and 9): the contiguous-run fast path
of `if_else` — find the condition's runs, then bulk-copy per run. -/
def ifElseFast (cond : List (Option Bool)) (left right : List (Option α)) :
    List (Option α) :=
  runSelect (findRuns cond) left right

theorem zipWith3_append_left (f : α → β → γ → δ) (a a' : List α) (l : List β) (r : List γ)
    (hl : a.length ≤ l.length) (hr : a.length ≤ r.length) :
    zipWith3 f (a ++ a') l r =
      zipWith3 f a l r ++ zipWith3 f a' (l.drop a.length) (r.drop a.length) := by
  induction a generalizing l r with
  | nil => simp
  | cons x xs ih =>
    cases l with
    | nil => simp at hl
    | cons y ys =>
      cases r with
      | nil => simp at hr
      | cons z zs =>
        simp only [List.cons_append, zipWith3_cons, List.length_cons, List.drop_succ_cons]
        rw [ih ys zs (by simpa using hl) (by simpa using hr)]

theorem zipWith3_replicate_true (l r : List (Option α)) (n : Nat)
    (hl : n ≤ l.length) (hr : n ≤ r.length) :
    zipWith3 ifElseRow (List.replicate n (some true)) l r = l.take n := by
  induction n generalizing l r with
  | zero => simp
  | succ m ih =>
    cases l with
    | nil => simp at hl
    | cons y ys =>
      cases r with
      | nil => simp at hr
      | cons z zs =>
        simp only [List.replicate_succ, zipWith3_cons, ifElseRow_true, List.take_succ_cons]
        rw [ih ys zs (by simpa using hl) (by simpa using hr)]

theorem zipWith3_replicate_false (l r : List (Option α)) (n : Nat)
    (hl : n ≤ l.length) (hr : n ≤ r.length) :
    zipWith3 ifElseRow (List.replicate n (some false)) l r = r.take n := by
  induction n generalizing l r with
  | zero => simp
  | succ m ih =>
    cases l with
    | nil => simp at hl
    | cons y ys =>
      cases r with
      | nil => simp at hr
      | cons z zs =>
        simp only [List.replicate_succ, zipWith3_cons, ifElseRow_false, List.take_succ_cons]
        rw [ih ys zs (by simpa using hl) (by simpa using hr)]

theorem zipWith3_replicate_none (l r : List (Option α)) (n : Nat)
    (hl : n ≤ l.length) (hr : n ≤ r.length) :
    zipWith3 ifElseRow (List.replicate n none) l r = List.replicate n none := by
  induction n generalizing l r with
  | zero => simp
  | succ m ih =>
    cases l with
    | nil => simp at hl
    | cons y ys =>
      cases r with
      | nil => simp at hr
      | cons z zs =>
        simp only [List.replicate_succ, zipWith3_cons, ifElseRow_none]
        rw [ih ys zs (by simpa using hl) (by simpa using hr)]

theorem runSelect_eq_zipWith3 (rs : List (Option Bool × Nat)) (l r : List (Option α))
    (hl : (expandRuns rs).length ≤ l.length) (hr : (expandRuns rs).length ≤ r.length) :
    runSelect rs l r = zipWith3 ifElseRow (expandRuns rs) l r := by
  induction rs generalizing l r with
  | nil => simp [runSelect]
  | cons p rs ih =>
    obtain ⟨v, n⟩ := p
    have hlen : n + (expandRuns rs).length ≤ l.length := by
      simpa [List.length_append] using hl
    have hren : n + (expandRuns rs).length ≤ r.length := by
      simpa [List.length_append] using hr
    have hnl : n ≤ l.length := by omega
    have hnr : n ≤ r.length := by omega
    have hdl : (expandRuns rs).length ≤ (l.drop n).length := by
      rw [List.length_drop]; omega
    have hdr : (expandRuns rs).length ≤ (r.drop n).length := by
      rw [List.length_drop]; omega
    rw [expandRuns_cons,
      zipWith3_append_left ifElseRow (List.replicate n v) (expandRuns rs) l r
        (by simpa using hnl) (by simpa using hnr)]
    simp only [List.length_replicate]
    cases v with
    | none =>
      rw [zipWith3_replicate_none l r n hnl hnr]
      show List.replicate n none ++ runSelect rs (l.drop n) (r.drop n) = _
      rw [ih (l.drop n) (r.drop n) hdl hdr]
    | some b =>
      cases b with
      | true =>
        rw [zipWith3_replicate_true l r n hnl hnr]
        show l.take n ++ runSelect rs (l.drop n) (r.drop n) = _
        rw [ih (l.drop n) (r.drop n) hdl hdr]
      | false =>
        rw [zipWith3_replicate_false l r n hnl hnr]
        show r.take n ++ runSelect rs (l.drop n) (r.drop n) = _
        rw [ih (l.drop n) (r.drop n) hdl hdr]

/-- C2: For equal-length inputs, the contiguous-run (bulk-copy) fast path of
`if_else` produces output identical to the general per-row path: the fast
path is observationally equal to the per-row reference semantics, never a
semantic difference. -/
theorem ifElseFast_eq_perRow (cond : List (Option Bool)) (left right : List (Option α))
    (hl : cond.length = left.length) (hr : cond.length = right.length) :
    ifElseFast cond left right = zipWith3 ifElseRow cond left right := by
  have he : expandRuns (findRuns cond) = cond := expandRuns_findRuns cond
  unfold ifElseFast
  rw [runSelect_eq_zipWith3 (findRuns cond) left right
    (by rw [he]; omega) (by rw [he]; omega), he]

/-- C2 witness: fast path and per-row path agree on a concrete input with a
true run, a false run and a null run, and the common result is the per-row
reference output. -/
theorem ifElseFast_eq_perRow_witness :
    ifElseFast [some true, some true, some false, none, none]
        [some 1, none, some 3, some 4, some 5]
        [some 6, some 7, none, some 9, some 10] =
      zipWith3 ifElseRow [some true, some true, some false, none, none]
        [some 1, none, some 3, some 4, some 5]
        [some 6, some 7, none, some 9, some 10] ∧
    zipWith3 ifElseRow [some true, some true, some false, none, none]
        [some 1, none, some 3, some 4, some 5]
        [some 6, some 7, none, some 9, some 10] =
      [some 1, none, none, none, none] :=
  ⟨ifElseFast_eq_perRow [some true, some true, some false, none, none]
      [some 1, none, some 3, some 4, some 5]
      [some 6, some 7, none, some 9, some 10] (by decide) (by decide),
    by decide⟩

/-- Modelled from the spec (section 4.3, per-row contract of `case_when`):
the `case_when` kernel implementation is not under `src/`. Scan the condition
cells in order; the first valid-and-true condition selects the paired value
cell. When the conditions are exhausted, a remaining value cell is the
unconditional default; otherwise the row is null. -/
def caseWhenRow : List (Option Bool) → List (Option α) → Option α
  | [], [] => none
  | [], d :: _ => d
  | c :: cs, v :: vs => if c = some true then v else caseWhenRow cs vs
  | _ :: _, [] => none

@[simp] theorem caseWhenRow_nil_nil :
    caseWhenRow ([] : List (Option Bool)) ([] : List (Option α)) = none := rfl

@[simp] theorem caseWhenRow_nil_cons (d : Option α) (vs : List (Option α)) :
    caseWhenRow [] (d :: vs) = d := rfl

@[simp] theorem caseWhenRow_cons_cons (c : Option Bool) (cs : List (Option Bool))
    (v : Option α) (vs : List (Option α)) :
    caseWhenRow (c :: cs) (v :: vs) = if c = some true then v else caseWhenRow cs vs := rfl

/-- Modelled from the spec (section 4.3): the `case_when` kernel, row-wise
over the logical batch length `len`; row `i` scans the `i`-th cell of each
condition column against the `i`-th cell of each value column. -/
def CaseWhenK (conds : List (List (Option Bool))) (vals : List (List (Option α)))
    (len : Nat) : List (Option α) :=
  (List.range len).map (fun i =>
    caseWhenRow (conds.map (fun c => c.getD i none)) (vals.map (fun v => v.getD i none)))

/-- C4: In `case_when`, a null condition cell behaves exactly as a false one:
it does not match, the scan continues with the next condition, and it does not
force the row's output to null. Stated both as a substitution law (replacing
a null condition anywhere in the scan by false leaves the row's result
unchanged) and as the scan-continuation step. -/
theorem caseWhen_null_cond_is_false (conds1 conds2 : List (Option Bool))
    (vals1 vals2 : List (Option α)) (v : Option α)
    (h : conds1.length = vals1.length) :
    caseWhenRow (conds1 ++ none :: conds2) (vals1 ++ v :: vals2) =
      caseWhenRow (conds1 ++ some false :: conds2) (vals1 ++ v :: vals2) ∧
    caseWhenRow (none :: conds2) (v :: vals2) = caseWhenRow conds2 vals2 := by
  constructor
  · induction conds1 generalizing vals1 with
    | nil =>
      cases vals1 with
      | nil => simp
      | cons w ws => simp at h
    | cons c cs ih =>
      cases vals1 with
      | nil => simp at h
      | cons w ws =>
        simp only [List.cons_append, caseWhenRow_cons_cons]
        rw [ih ws (by simpa using h)]
  · simp

/-- C4 witness: a row whose first condition is false, second condition null
and third condition true — replacing the null by false leaves the result
unchanged, the scan continues past the null, and the row yields the third
value rather than defaulting to null. -/
theorem caseWhen_null_cond_is_false_witness :
    (caseWhenRow [some false, none, some true] [some 1, some 2, some 3] =
        caseWhenRow [some false, some false, some true] [some 1, some 2, some 3] ∧
      caseWhenRow [none, some true] [some 2, some 3] = caseWhenRow [some true] [some 3]) ∧
    caseWhenRow [some false, none, some true] [some 1, some 2, some 3] = some 3 :=
  ⟨caseWhen_null_cond_is_false [some false] [some true] [some 1] [some 3] (some 2)
      (by decide),
    by decide⟩

/-- Modelled from the spec (section 4.4, per-row contract of `coalesce`): the
`coalesce` kernel implementation is not under `src/`. The first valid cell in
argument order wins; if all are null the row is null. -/
def coalesceRow : List (Option α) → Option α
  | [] => none
  | none :: rest => coalesceRow rest
  | some v :: _ => some v

@[simp] theorem coalesceRow_nil : coalesceRow ([] : List (Option α)) = none := rfl

@[simp] theorem coalesceRow_cons_none (rest : List (Option α)) :
    coalesceRow (none :: rest) = coalesceRow rest := rfl

@[simp] theorem coalesceRow_cons_some (v : α) (rest : List (Option α)) :
    coalesceRow (some v :: rest) = some v := rfl

/-- Modelled from the spec (section 4.4): the `coalesce` kernel, row-wise over
the logical batch length `len`. -/
def CoalesceK (args : List (List (Option α))) (len : Nat) : List (Option α) :=
  (List.range len).map (fun i => coalesceRow (args.map (fun a => a.getD i none)))

theorem getD_map_of_getD (f : α → β) (l : List α) (k : Nat) (d : α) (h : k < l.length) :
    (l.map f).getD k (f d) = f (l.getD k d) := by
  induction l generalizing k with
  | nil => simp at h
  | cons x xs ih =>
    cases k with
    | zero => simp
    | succ j =>
      simp only [List.map_cons, List.getD_cons_succ]
      exact ih j (by simpa using h)

theorem getD_map_range (f : Nat → α) (len i : Nat) (d : α) (h : i < len) :
    ((List.range len).map f).getD i d = f i := by
  rw [List.getD_eq_getElem _ _ (by simpa using h)]
  simp

theorem coalesceRow_first_valid (cells : List (Option α)) :
    (∃ k, k < cells.length ∧ (∀ j, j < k → cells.getD j none = none) ∧
      (cells.getD k none).isSome = true ∧ coalesceRow cells = cells.getD k none) ∨
    ((∀ k, k < cells.length → cells.getD k none = none) ∧ coalesceRow cells = none) := by
  induction cells with
  | nil =>
    right
    exact ⟨fun k hk => by simp at hk, rfl⟩
  | cons x xs ih =>
    cases x with
    | some v =>
      left
      exact ⟨0, by simp, fun j hj => by omega, by simp, by simp⟩
    | none =>
      rcases ih with ⟨k, hk, hprev, hsome, heq⟩ | ⟨hall, heq⟩
      · left
        refine ⟨k + 1, by simpa using hk, ?_, by simpa using hsome, by simpa using heq⟩
        intro j hj
        cases j with
        | zero => simp
        | succ j0 =>
          simp only [List.getD_cons_succ]
          exact hprev j0 (by omega)
      · right
        refine ⟨?_, by simpa using heq⟩
        intro k hk
        cases k with
        | zero => simp
        | succ j0 =>
          simp only [List.getD_cons_succ]
          exact hall j0 (by simpa using hk)

/-- C5: For a non-empty list of same-length arguments and any row `i`, the
`coalesce` output cell at `i` is the first argument cell (in argument order)
that is valid, and is null when every argument cell at `i` is null; moreover
on the spec's example — an all-null first argument, `[1, null, 3]` and
`[9, 9, 9]` — the output is `[1, 9, 3]`. -/
theorem coalesce_first_non_null :
    (∀ (α : Type) (args : List (List (Option α))) (len i : Nat), i < len →
      (CoalesceK args len).length = len ∧
      ((∃ k, k < args.length ∧
          (∀ j, j < k → (args.getD j []).getD i none = none) ∧
          ((args.getD k []).getD i none).isSome = true ∧
          (CoalesceK args len).getD i none = (args.getD k []).getD i none) ∨
        ((∀ k, k < args.length → (args.getD k []).getD i none = none) ∧
          (CoalesceK args len).getD i none = none))) ∧
    CoalesceK [[none, none, none], [some 1, none, some 3], [some 9, some 9, some 9]] 3 =
      [some 1, some 9, some 3] := by
  constructor
  · intro α args len i hi
    refine ⟨by simp [CoalesceK], ?_⟩
    have hout : (CoalesceK args len).getD i none =
        coalesceRow (args.map (fun a => a.getD i none)) := by
      unfold CoalesceK
      exact getD_map_range _ len i none hi
    have hcell : ∀ k, k < args.length →
        (args.map (fun a => a.getD i none)).getD k none = (args.getD k []).getD i none := by
      intro k hk
      have := getD_map_of_getD (fun a => a.getD i none) args k [] hk
      simpa using this
    rcases coalesceRow_first_valid (args.map (fun a => a.getD i none)) with
      ⟨k, hk, hprev, hsome, heq⟩ | ⟨hall, heq⟩
    · left
      have hk' : k < args.length := by simpa using hk
      refine ⟨k, hk', ?_, ?_, ?_⟩
      · intro j hj
        rw [← hcell j (by omega)]
        exact hprev j hj
      · rw [← hcell k hk']
        exact hsome
      · rw [hout, heq, hcell k hk']
    · right
      refine ⟨?_, by rw [hout, heq]⟩
      intro k hk
      rw [← hcell k hk]
      exact hall k (by simpa using hk)
  · decide

/-- C5 witness: the contract instantiated at the spec's example at row 1 (the
row where the first two arguments are null and the third supplies 9). -/
theorem coalesce_first_non_null_witness :
    ((CoalesceK [[none, none, none], [some 1, none, some 3],
        [some 9, some 9, some 9]] 3).length = 3 ∧
      ((∃ k, k < 3 ∧
          (∀ j, j < k → (([[none, none, none], [some 1, none, some 3],
            [some 9, some 9, some 9]] : List (List (Option Nat))).getD j []).getD 1 none = none) ∧
          ((([[none, none, none], [some 1, none, some 3],
            [some 9, some 9, some 9]] : List (List (Option Nat))).getD k []).getD 1 none).isSome = true ∧
          (CoalesceK [[none, none, none], [some 1, none, some 3],
            [some 9, some 9, some 9]] 3).getD 1 none =
            (([[none, none, none], [some 1, none, some 3],
              [some 9, some 9, some 9]] : List (List (Option Nat))).getD k []).getD 1 none) ∨
        ((∀ k, k < 3 → (([[none, none, none], [some 1, none, some 3],
            [some 9, some 9, some 9]] : List (List (Option Nat))).getD k []).getD 1 none = none) ∧
          (CoalesceK [[none, none, none], [some 1, none, some 3],
            [some 9, some 9, some 9]] 3).getD 1 none = none))) :=
  (coalesce_first_non_null.1 Nat
    [[none, none, none], [some 1, none, some 3], [some 9, some 9, some 9]] 3 1
    (by decide))

/-- Modelled from the spec (section 4.5): a non-null index cell is out of
range when it is negative or at least the number of choices. -/
def idxBad (numChoices : Nat) : Option Int → Bool
  | none => false
  | some k => decide (k < 0) || decide (numChoices ≤ k.toNat)

/-- Modelled from the spec (section 4.5, per-row contract of `choose`): row
`i` is null when the index cell is null, and otherwise the selected choice
column's cell at row `i`, with that source's own null-ness. -/
def chooseCell (indices : List (Option Int)) (choices : List (List (Option α)))
    (i : Nat) : Option α :=
  match indices.getD i none with
  | none => none
  | some k => (choices.getD k.toNat []).getD i none

/-- Modelled from the spec (sections 4.5 and 7): the `choose` kernel. Any
non-null out-of-range index fails the entire call with `IndexOutOfBounds`
(no partial output); otherwise every row is selected per `chooseCell`. -/
def Choose (indices : List (Option Int)) (choices : List (List (Option α))) :
    Except KError (List (Option α)) :=
  if indices.any (idxBad choices.length) then
    .error .IndexOutOfBounds
  else
    .ok ((List.range indices.length).map (chooseCell indices choices))

theorem getD_mem_of_lt (l : List α) (i : Nat) (d : α) (h : i < l.length) :
    l.getD i d ∈ l := by
  induction l generalizing i with
  | nil => simp at h
  | cons x xs ih =>
    cases i with
    | zero => simp
    | succ j =>
      simp only [List.getD_cons_succ]
      exact List.mem_cons_of_mem x (ih j (by simpa using h))

/-- C3: For `choose` with `N` choice columns: if some row has a non-null index
outside `[0, N)`, the entire call fails with `IndexOutOfBounds` — no partial
output and no per-row null for the offending row; if every non-null index is
in `[0, N)`, the call succeeds and row `i` yields the indexed choice's cell at
`i` (null when the index cell is null), propagating the selected source's own
null-ness. -/
theorem choose_bounds_contract (indices : List (Option Int))
    (choices : List (List (Option α))) :
    ((∃ i k, i < indices.length ∧ indices.getD i none = some k ∧
        (k < 0 ∨ (choices.length : Int) ≤ k)) →
      Choose indices choices = .error .IndexOutOfBounds) ∧
    ((∀ i k, i < indices.length → indices.getD i none = some k →
        0 ≤ k ∧ k < (choices.length : Int)) →
      ∃ out, Choose indices choices = .ok out ∧ out.length = indices.length ∧
        ∀ i, i < indices.length →
          out.getD i none = (match indices.getD i none with
            | none => (none : Option α)
            | some k => (choices.getD k.toNat []).getD i none)) := by
  constructor
  · rintro ⟨i, k, hi, hik, hout⟩
    have hmem : some k ∈ indices := by
      rw [← hik]
      exact getD_mem_of_lt indices i none hi
    have hany : indices.any (idxBad choices.length) = true := by
      rw [List.any_eq_true]
      refine ⟨some k, hmem, ?_⟩
      simp only [idxBad, Bool.or_eq_true, decide_eq_true_eq]
      omega
    unfold Choose
    rw [if_pos hany]
  · intro hin
    have hany : indices.any (idxBad choices.length) = false := by
      rw [List.any_eq_false]
      intro x hx
      rcases List.mem_iff_getElem.mp hx with ⟨i, hilen, hig⟩
      have hgd : indices.getD i none = x := by
        rw [List.getD_eq_getElem indices none hilen, hig]
      cases x with
      | none => simp [idxBad]
      | some k =>
        have hb := hin i k hilen hgd
        simp only [idxBad, Bool.or_eq_true, decide_eq_true_eq]
        omega
    refine ⟨(List.range indices.length).map (chooseCell indices choices), ?_, ?_, ?_⟩
    · unfold Choose
      rw [if_neg (by rw [hany]; exact Bool.false_ne_true)]
    · simp
    · intro i hi
      rw [getD_map_range (chooseCell indices choices) indices.length i none hi]
      rfl

/-- C3 witness: a call with index 7 against a single choice column fails
wholesale with `IndexOutOfBounds`, and a call whose non-null indices are all
in range succeeds with the per-row selection (row 0 selects choice 0's cell,
row 1 is null because its index is null). -/
theorem choose_bounds_contract_witness :
    Choose [some 7] [[some 1]] = .error .IndexOutOfBounds ∧
    (∃ out, Choose [some 0, none] ([[some 9, some 8]] : List (List (Option Nat))) =
        .ok out ∧ out.length = 2 ∧
      ∀ i, i < 2 →
        out.getD i none = (match ([some 0, none] : List (Option Int)).getD i none with
          | none => (none : Option Nat)
          | some k => (([[some 9, some 8]] : List (List (Option Nat))).getD k.toNat []).getD i none)) :=
  ⟨(choose_bounds_contract [some 7] [[some 1]]).1
      ⟨0, 7, by decide, rfl, by decide⟩,
    (choose_bounds_contract [some 0, none] [[some 9, some 8]]).2
      (by
        intro i k hi hk
        have h2 : i < 2 := by simpa using hi
        interval_cases i <;> simp_all <;> omega)⟩

/-- Zero-copy slice of an array (spec section 3): `m` rows starting at
logical offset `k`. -/
def arraySlice (xs : List α) (k m : Nat) : List α := (xs.drop k).take m

theorem zipWith3_take (f : α → β → γ → δ) (a : List α) (b : List β) (c : List γ)
    (n : Nat) :
    (zipWith3 f a b c).take n = zipWith3 f (a.take n) (b.take n) (c.take n) := by
  induction a generalizing b c n with
  | nil => simp
  | cons x xs ih =>
    cases b with
    | nil => simp
    | cons y ys =>
      cases c with
      | nil => simp
      | cons z zs =>
        cases n with
        | zero => simp
        | succ m =>
          simp only [zipWith3_cons, List.take_succ_cons]
          rw [ih ys zs m]

theorem zipWith3_drop (f : α → β → γ → δ) (a : List α) (b : List β) (c : List γ)
    (n : Nat) :
    (zipWith3 f a b c).drop n = zipWith3 f (a.drop n) (b.drop n) (c.drop n) := by
  induction a generalizing b c n with
  | nil => simp
  | cons x xs ih =>
    cases b with
    | nil => simp
    | cons y ys =>
      cases c with
      | nil => simp
      | cons z zs =>
        cases n with
        | zero => simp
        | succ m =>
          simp only [zipWith3_cons, List.drop_succ_cons]
          exact ih ys zs m

/-- C7: Slicing commutes with `if_else`: for equal-length array inputs and any
valid `k`, `m` (the sliced window lies inside the batch), slicing the
`if_else` output at `(k, m)` equals running `if_else` on the `(k, m)` slices
of the condition and both value arrays. -/
theorem ifElse_slice_commutes (len k m : Nat) (c : List (Option Bool))
    (l r : List (Option α))
    (hc : c.length = len) (hl : l.length = len) (hr : r.length = len)
    (hkm : k + m ≤ len) :
    ∃ out outS, IfElse len (.arr c) (.arr l) (.arr r) = .ok out ∧
      IfElse m (.arr (arraySlice c k m)) (.arr (arraySlice l k m))
        (.arr (arraySlice r k m)) = .ok outS ∧
      outS = arraySlice out k m := by
  have hsc : (arraySlice c k m).length = m := by
    simp only [arraySlice, List.length_take, List.length_drop, hc]
    omega
  have hsl : (arraySlice l k m).length = m := by
    simp only [arraySlice, List.length_take, List.length_drop, hl]
    omega
  have hsr : (arraySlice r k m).length = m := by
    simp only [arraySlice, List.length_take, List.length_drop, hr]
    omega
  refine ⟨zipWith3 ifElseRow c l r,
    zipWith3 ifElseRow (arraySlice c k m) (arraySlice l k m) (arraySlice r k m),
    ?_, ?_, ?_⟩
  · unfold IfElse
    rw [if_pos (by simp [hc, hl, hr])]
    simp
  · unfold IfElse
    rw [if_pos (by simp [hsc, hsl, hsr])]
    simp
  · unfold arraySlice
    rw [zipWith3_drop ifElseRow c l r k, zipWith3_take]

/-- C7 witness: slicing one row starting at offset 1 out of a three-row batch
commutes with `if_else`. -/
theorem ifElse_slice_commutes_witness :
    ∃ out outS, IfElse 3 (.arr [some true, some false, none])
        (.arr [some 1, some 2, some 3]) (.arr ([some 4, some 5, some 6] : List (Option Nat))) =
        .ok out ∧
      IfElse 1 (.arr (arraySlice [some true, some false, none] 1 1))
        (.arr (arraySlice [some 1, some 2, some 3] 1 1))
        (.arr (arraySlice ([some 4, some 5, some 6] : List (Option Nat)) 1 1)) = .ok outS ∧
      outS = arraySlice out 1 1 :=
  ifElse_slice_commutes 3 1 1 [some true, some false, none]
    [some 1, some 2, some 3] [some 4, some 5, some 6]
    (by decide) (by decide) (by decide) (by decide)

/-- The output validity bitmap (glossary: one bit per row, 1 = value present,
0 = null), read off the output cells. -/
def validityBitmap (xs : List (Option α)) : List Bool := xs.map Option.isSome

/-- Population count of the null (zero) bits of the output validity bitmap. -/
def nullPopCount (xs : List (Option α)) : Nat :=
  (validityBitmap xs).countP (fun b => !b)

theorem nullPopCount_eq_countP_isNone (xs : List (Option α)) :
    nullPopCount xs = xs.countP (fun o => o.isNone) := by
  unfold nullPopCount validityBitmap
  rw [List.countP_map]
  apply List.countP_congr
  intro o _
  cases o <;> simp

theorem countP_eq_countP_range (xs : List α) (p : α → Bool) (d : α) :
    xs.countP p = (List.range xs.length).countP (fun i => p (xs.getD i d)) := by
  induction xs with
  | nil => simp
  | cons x t ih =>
    rw [List.countP_cons, List.length_cons, List.range_succ_eq_map,
      List.countP_cons, List.countP_map]
    have hcomp : ((fun i => p ((x :: t).getD i d)) ∘ Nat.succ) =
        (fun i => p (t.getD i d)) := by
      funext i
      simp
    rw [hcomp, ← ih]
    simp [Nat.add_comm]

/-- C8: Null-count invariant. For each of the four kernels, whenever a call
succeeds, the population count of null bits in the output validity bitmap
equals the number of rows (indices in the batch) for which the per-row
selection contract yields null. -/
theorem null_count_invariant (α : Type) :
    (∀ (len : Nat) (cond : Datum Bool) (left right : Datum α)
        (out : List (Option α)), IfElse len cond left right = .ok out →
      nullPopCount out = (List.range len).countP (fun i =>
        (ifElseRow ((cond.broadcast len).getD i none)
          ((left.broadcast len).getD i none)
          ((right.broadcast len).getD i none)).isNone)) ∧
    (∀ (conds : List (List (Option Bool))) (vals : List (List (Option α))) (len : Nat),
      nullPopCount (CaseWhenK conds vals len) = (List.range len).countP (fun i =>
        (caseWhenRow (conds.map (fun c => c.getD i none))
          (vals.map (fun v => v.getD i none))).isNone)) ∧
    (∀ (args : List (List (Option α))) (len : Nat),
      nullPopCount (CoalesceK args len) = (List.range len).countP (fun i =>
        (coalesceRow (args.map (fun a => a.getD i none))).isNone)) ∧
    (∀ (indices : List (Option Int)) (choices : List (List (Option α)))
        (out : List (Option α)), Choose indices choices = .ok out →
      nullPopCount out = (List.range indices.length).countP (fun i =>
        (chooseCell indices choices i).isNone)) := by
  refine ⟨?_, ?_, ?_, ?_⟩
  · intro len cond left right out hok
    unfold IfElse at hok
    by_cases hlen : (cond.broadcast len).length = len ∧ (left.broadcast len).length = len ∧
        (right.broadcast len).length = len
    · rw [if_pos hlen] at hok
      obtain ⟨hc, hl, hr⟩ := hlen
      have hout : out = zipWith3 ifElseRow (cond.broadcast len) (left.broadcast len)
          (right.broadcast len) := by
        cases hok
        rfl
      have holen : out.length = len := by
        rw [hout, length_zipWith3]
        omega
      rw [nullPopCount_eq_countP_isNone, countP_eq_countP_range out _ none, holen]
      apply List.countP_congr
      intro i hi
      have hilt : i < len := by simpa using hi
      rw [hout, getD_zipWith3 ifElseRow _ _ _ i none none none none
        (by omega) (by omega) (by omega)]
    · rw [if_neg hlen] at hok
      cases hok
  · intro conds vals len
    rw [nullPopCount_eq_countP_isNone]
    unfold CaseWhenK
    rw [List.countP_map]
    rfl
  · intro args len
    rw [nullPopCount_eq_countP_isNone]
    unfold CoalesceK
    rw [List.countP_map]
    rfl
  · intro indices choices out hok
    unfold Choose at hok
    by_cases hany : indices.any (idxBad choices.length) = true
    · rw [if_pos hany] at hok
      cases hok
    · rw [if_neg hany] at hok
      have hout : out = (List.range indices.length).map (chooseCell indices choices) := by
        cases hok
        rfl
      rw [hout, nullPopCount_eq_countP_isNone, List.countP_map]
      rfl

/-- C8 witness: the invariant instantiated for each kernel on a concrete
batch — an `if_else` call with one null condition row and one null selected
cell, a `case_when`, a `coalesce` and a successful `choose` call. -/
theorem null_count_invariant_witness :
    (nullPopCount [some 1, none, none] = (List.range 3).countP (fun i =>
      (ifElseRow (((Datum.arr [some true, some true, none] : Datum Bool).broadcast 3).getD i none)
        (((Datum.arr [some 1, none, some 3] : Datum Nat).broadcast 3).getD i none)
        (((Datum.arr [some 4, some 5, some 6] : Datum Nat).broadcast 3).getD i none)).isNone)) ∧
    (nullPopCount (CaseWhenK [[some false, some true]] [[some 7, none]] 2) =
      (List.range 2).countP (fun i =>
        (caseWhenRow (([[some false, some true]] : List (List (Option Bool))).map
            (fun c => c.getD i none))
          (([[some 7, none]] : List (List (Option Nat))).map (fun v => v.getD i none))).isNone)) ∧
    (nullPopCount (CoalesceK [[none, none], [some 4, none]] 2) =
      (List.range 2).countP (fun i =>
        (coalesceRow (([[none, none], [some 4, none]] : List (List (Option Nat))).map
          (fun a => a.getD i none))).isNone)) ∧
    (nullPopCount [some 9, none] = (List.range 2).countP (fun i =>
      (chooseCell [some 0, none] ([[some 9, some 8]] : List (List (Option Nat))) i).isNone)) :=
  ⟨(null_count_invariant Nat).1 3 (Datum.arr [some true, some true, none])
      (Datum.arr [some 1, none, some 3]) (Datum.arr [some 4, some 5, some 6])
      [some 1, none, none] rfl,
    (null_count_invariant Nat).2.1 [[some false, some true]] [[some 7, none]] 2,
    (null_count_invariant Nat).2.2.1 [[none, none], [some 4, none]] 2,
    (null_count_invariant Nat).2.2.2 [some 0, none] [[some 9, some 8]]
      [some 9, none] rfl⟩

/-!
Models of the benchmark wrappers that are present in the source file
`src/cpp/src/arrow/compute/kernels/scalar_if_else_benchmark.cc` itself.
-/

/-- The element types the benchmark templates are instantiated with
(source lines 120-150). -/
inductive ElemType where
  | uint32
  | uint64
  | stringUtf8
  | largeStringUtf8
  deriving DecidableEq, Repr

/-- The two if-else benchmark templates in the source file. -/
inductive BenchTemplate where
  | ifElseBench
  | ifElseBenchContiguous
  deriving DecidableEq, Repr

/-- Model of the template `IfElseBenchContiguous<Type>` (source lines 88-118):
the benchmark it denotes is determined by the template and the element type it
is instantiated with. -/
def IfElseBenchContiguousInst (t : ElemType) : BenchTemplate × ElemType :=
  (.ifElseBenchContiguous, t)

/-- `IfElseBench64Contiguous` forwards to `IfElseBenchContiguous<UInt64Type>`
(source lines 136-138). -/
def IfElseBench64Contiguous : BenchTemplate × ElemType :=
  IfElseBenchContiguousInst .uint64

/-- `IfElseBench32Contiguous` forwards to `IfElseBenchContiguous<UInt32Type>`
(source lines 140-142). -/
def IfElseBench32Contiguous : BenchTemplate × ElemType :=
  IfElseBenchContiguousInst .uint32

/-- `IfElseBenchString64Contiguous` forwards to
`IfElseBenchContiguous<UInt64Type>` (source lines 144-146) — not to a string
instantiation. -/
def IfElseBenchString64Contiguous : BenchTemplate × ElemType :=
  IfElseBenchContiguousInst .uint64

/-- `IfElseBenchString32Contiguous` forwards to
`IfElseBenchContiguous<UInt32Type>` (source lines 148-150) — not to a string
instantiation. -/
def IfElseBenchString32Contiguous : BenchTemplate × ElemType :=
  IfElseBenchContiguousInst .uint32

/-- C9: The "String" contiguous benchmark wrappers are extensionally equal to
the numeric ones: `IfElseBenchString64Contiguous` denotes the same benchmark
as `IfElseBench64Contiguous` and `IfElseBenchString32Contiguous` the same as
`IfElseBench32Contiguous`; both instantiate the template with the unsigned
integer element types, so neither denotes a string-typed benchmark. -/
theorem ifElseBenchStringContiguous_eq_numeric :
    IfElseBenchString64Contiguous = IfElseBench64Contiguous ∧
    IfElseBenchString32Contiguous = IfElseBench32Contiguous ∧
    IfElseBenchString64Contiguous.2 = ElemType.uint64 ∧
    IfElseBenchString32Contiguous.2 = ElemType.uint32 :=
  ⟨rfl, rfl, rfl, rfl⟩

/-- Null probabilities, in hundredths, of the argument arrays that
`CoalesceBench<Type>` passes to the `coalesce` call: four random arrays each
with `null_probability = 0.25` (source lines 280-284). -/
def CoalesceBenchArgNullProbs : List Nat := [25, 25, 25, 25]

/-- Null probabilities, in hundredths, of the argument arrays that
`CoalesceNonNullBench<Type>` passes to the `coalesce` call: one random array
with `null_probability = 0.25` and a trailing array with
`null_probability = 0`, i.e. a guaranteed-valid trailing argument
(source lines 304-307). -/
def CoalesceNonNullBenchArgNullProbs : List Nat := [25, 0]

/-- The registered benchmark `CoalesceNonNullBench64` forwards to
`CoalesceBench<Int64Type>` — not to `CoalesceNonNullBench<Int64Type>`
(source lines 321-323). -/
def CoalesceNonNullBench64ArgNullProbs : List Nat := CoalesceBenchArgNullProbs

/-- C6 (code evaluated at the failing input): the registered
`CoalesceNonNullBench64` benchmark passes the `CoalesceBench` argument list —
four arrays of null probability 25% — so its trailing argument can contain
nulls, while the unused `CoalesceNonNullBench` template is the one whose
trailing argument has null probability 0. -/
theorem coalesceNonNullBench64_args :
    CoalesceNonNullBench64ArgNullProbs = CoalesceBenchArgNullProbs ∧
    CoalesceNonNullBench64ArgNullProbs = [25, 25, 25, 25] ∧
    CoalesceNonNullBench64ArgNullProbs.getLast? = some 25 ∧
    CoalesceNonNullBenchArgNullProbs.getLast? = some 0 :=
  ⟨rfl, rfl, rfl, rfl⟩

/-- Models `GetBytesProcessed<BooleanType>::Get` (source lines 35-38):
`arr->length() / 8` with C++ `int64_t` division; an array length is
non-negative, so this is floor division on `Nat`. -/
def GetBytesProcessedBoolean (len : Nat) : Nat := len / 8

/-- C10: `GetBytesProcessed<BooleanType>::Get` reports `length / 8` with
integer (floor) division: the result is the unique byte count with
`8 * result ≤ length < 8 * result + 8`, so a length that is not a multiple
of 8 has its final partial byte excluded; in particular any boolean array
shorter than 8 rows reports 0 bytes (e.g. length 7), and length 12 reports
only 1 byte. -/
theorem getBytesProcessedBoolean_floor :
    (∀ len : Nat, GetBytesProcessedBoolean len = len / 8 ∧
      8 * GetBytesProcessedBoolean len ≤ len ∧
      len < 8 * GetBytesProcessedBoolean len + 8) ∧
    GetBytesProcessedBoolean 7 = 0 ∧
    GetBytesProcessedBoolean 12 = 1 ∧
    GetBytesProcessedBoolean 0 = 0 := by
  refine ⟨?_, rfl, rfl, rfl⟩
  intro len
  unfold GetBytesProcessedBoolean
  refine ⟨rfl, ?_, ?_⟩ <;> omega
